import Mathlib

/-!
Shallow embedding of the string-analyzer service (src/index.js).

The repository is a single Express application file containing two
near-duplicate variants of the same service (separated in src/index.js by a
document separator).  The first variant (lines 1-315) is embedded as the
primary definitions; where a claim cites the second variant (lines 316-660)
its differing parts are embedded with a `2` suffix.

Modelling conventions:
* JavaScript strings are modelled as Lean `String` / `List Char` (code
  points).  `value.length`, `new Set(value)`, `for...of` and `split("")`
  act on code units / code points; for the properties the claims cover the
  code-point view is faithful.
* `crypto.createHash("sha256")` is an external primitive; the digest
  function is a parameter `hash : String → String` of every definition that
  uses it, exactly as the spec treats it (deterministic, total).
* `new Date().toISOString()` is modelled by a timestamp parameter `now`.
* `String.prototype.toLowerCase` is modelled on the ASCII range (the only
  range the claims exercise): `jsToLower`.
-/

/-- The set of characters matched by the JavaScript regex class `\s`
(whitespace): space, tab, line feed, vertical tab, form feed, carriage
return, NBSP, Ogham space, the U+2000..U+200A range, line and paragraph
separators, narrow NBSP, medium mathematical space, ideographic space and
BOM. -/
def jsIsSpace (c : Char) : Bool :=
  let n := c.toNat
  n == 0x20 || n == 0x09 || n == 0x0a || n == 0x0b || n == 0x0c ||
  n == 0x0d || n == 0xa0 || n == 0x1680 ||
  (0x2000 ≤ n && n ≤ 0x200a) ||
  n == 0x2028 || n == 0x2029 || n == 0x202f || n == 0x205f ||
  n == 0x3000 || n == 0xfeff

/-- ASCII model of JavaScript `toLowerCase`: map A-Z to a-z, leave every
other character unchanged. -/
def jsToLower (c : Char) : Char :=
  if 0x41 ≤ c.toNat && c.toNat ≤ 0x5a then Char.ofNat (c.toNat + 0x20) else c

/-- The JavaScript regex class `\d`: ASCII decimal digits. -/
def jsIsDigit (c : Char) : Bool :=
  0x30 ≤ c.toNat && c.toNat ≤ 0x39

/-- The JavaScript regex class `\w`: ASCII letters, digits and underscore. -/
def jsIsWordChar (c : Char) : Bool :=
  (0x41 ≤ c.toNat && c.toNat ≤ 0x5a) || (0x61 ≤ c.toNat && c.toNat ≤ 0x7a) ||
  jsIsDigit c || c.toNat == 0x5f

/-- `pat` is a leading segment of `l` (helper for substring search). -/
def startsWithChars : List Char → List Char → Bool
  | _, [] => true
  | [], _ :: _ => false
  | a :: as, b :: bs => a == b && startsWithChars as bs

/-- JavaScript `hay.includes(pat)`: `pat` occurs contiguously in `hay`. -/
def jsIncludes : List Char → List Char → Bool
  | [], pat => pat.isEmpty
  | c :: t, pat => startsWithChars (c :: t) pat || jsIncludes t pat

/-- Word counting state machine: `value.trim().split(/\s+/).filter(Boolean).length`
counts the maximal runs of non-whitespace characters.  The flag records
whether the previous character belonged to a word. -/
def wordCountAux : Bool → List Char → Nat
  | _, [] => 0
  | inWord, c :: t =>
    if jsIsSpace c then wordCountAux false t
    else (if inWord then 0 else 1) + wordCountAux true t

/-- `value.trim().split(/\s+/).filter(Boolean).length` from `analyzeString`. -/
def wordCount (value : String) : Nat := wordCountAux false value.data

/-- One step of first-occurrence deduplication (JavaScript `Set` insertion
order). -/
def insertIfNew (ks : List Char) (c : Char) : List Char :=
  if ks.any (· == c) then ks else ks ++ [c]

/-- The distinct characters of `l` in first-occurrence order: `new Set(value)`. -/
def distinctChars (l : List Char) : List Char := l.foldl insertIfNew []

/-- One iteration of the frequency loop:
`charFrequency[char] = (charFrequency[char] || 0) + 1`.  A fresh key is
appended (JavaScript object keys keep insertion order); an existing key has
its count incremented. -/
def bumpChar (m : List (Char × Nat)) (c : Char) : List (Char × Nat) :=
  if m.any (fun p => p.1 == c) then
    m.map (fun p => if p.1 == c then (p.1, p.2 + 1) else p)
  else m ++ [(c, 1)]

/-- The `charFrequency` object built by `for (const char of value)`. -/
def charFrequency (l : List Char) : List (Char × Nat) := l.foldl bumpChar []

/-- `value.toLowerCase().replace(/\s/g, "")`. -/
def normalizeForPalindrome (l : List Char) : List Char :=
  (l.map jsToLower).filter (fun c => !jsIsSpace c)

/-- `normalized === normalized.split("").reverse().join("")`. -/
def isPalindromeCheck (l : List Char) : Bool :=
  normalizeForPalindrome l == (normalizeForPalindrome l).reverse

/-- The `properties` object of an analyzed string (first variant: no
timestamp inside `properties`). -/
structure StringProperties where
  length : Nat
  is_palindrome : Bool
  unique_characters : Nat
  word_count : Nat
  sha256_hash : String
  character_frequency_map : List (Char × Nat)
deriving DecidableEq

/-- The record returned by `analyzeString` (first variant): `created_at`
is a top-level field. -/
structure AnalyzedString where
  id : String
  value : String
  properties : StringProperties
  created_at : String
deriving DecidableEq

/-- `analyzeString` (src/index.js lines 23-50), parametrised by the sha256
digest function and the current timestamp. -/
def analyzeString (hash : String → String) (value now : String) : AnalyzedString :=
  let sha256 := hash value
  { id := sha256
    value := value
    properties :=
      { length := value.data.length
        is_palindrome := isPalindromeCheck value.data
        unique_characters := (distinctChars value.data).length
        word_count := wordCount value
        sha256_hash := sha256
        character_frequency_map := charFrequency value.data }
    created_at := now }

/-- The `properties` object of the second variant (lines 355-367), which
places `created_at` inside `properties`. -/
structure StringProperties2 where
  length : Nat
  is_palindrome : Bool
  unique_characters : Nat
  word_count : Nat
  sha256_hash : String
  character_frequency_map : List (Char × Nat)
  created_at : String
deriving DecidableEq

/-- The record returned by the second variant `analyzeString` (lines 339-368). -/
structure AnalyzedString2 where
  id : String
  value : String
  properties : StringProperties2
deriving DecidableEq

/-- Second variant `analyzeString` (src/index.js lines 339-368): identical
computation, but `created_at` lives inside `properties`. -/
def analyzeString2 (hash : String → String) (value now : String) : AnalyzedString2 :=
  let sha256 := hash value
  { id := sha256
    value := value
    properties :=
      { length := value.data.length
        is_palindrome := isPalindromeCheck value.data
        unique_characters := (distinctChars value.data).length
        word_count := wordCount value
        sha256_hash := sha256
        character_frequency_map := charFrequency value.data
        created_at := now } }

/-! ### The content-addressed store

`const analyzedStrings = new Map()`: a JavaScript `Map` keyed by the hex
digest, iterated in insertion order, modelled as an association list that
appends fresh keys at the end. -/

/-- The in-memory store: digest key paired with the stored record, in
insertion order. -/
abbrev Store := List (String × AnalyzedString)

/-- `analyzedStrings.has(hash)`. -/
def hasKey (store : Store) (k : String) : Bool :=
  store.any (fun p => p.1 == k)

/-- `analyzedStrings.get(hash)` (first match on the key). -/
def getKey (store : Store) (k : String) : Option AnalyzedString :=
  (store.find? (fun p => p.1 == k)).map (·.2)

/-- Outcome of `POST /strings` as seen at the store level. -/
inductive PutResult where
  | conflict : PutResult
  | created : AnalyzedString → PutResult
deriving DecidableEq

/-- The store mutation of `app.post("/strings")` (lines 66-78): recompute the
digest, fail with a conflict when the key is present (store untouched),
otherwise analyze and insert under the digest. -/
def put (hash : String → String) (store : Store) (value now : String) :
    PutResult × Store :=
  let h := hash value
  if hasKey store h then (PutResult.conflict, store)
  else
    let result := analyzeString hash value now
    (PutResult.created result, store ++ [(h, result)])

/-- The lookup of `app.get("/strings/:string_value")` (lines 152-167):
recompute the digest of the raw value and look it up; no scanning. -/
def getValue (hash : String → String) (store : Store) (value : String) :
    Option AnalyzedString :=
  let h := hash value
  if hasKey store h then getKey store h else none

/-- The store mutation of `app.delete("/strings/:string_value")`
(lines 288-305): recompute the digest, remove the entry if present and
report whether a removal happened. -/
def deleteValue (hash : String → String) (store : Store) (value : String) :
    Bool × Store :=
  let h := hash value
  if hasKey store h then (true, store.filter (fun p => !(p.1 == h)))
  else (false, store)

/-- `Array.from(analyzedStrings.values())`: the stored records in insertion
order. -/
def listStrings (store : Store) : List AnalyzedString :=
  store.map (·.2)

/-- A sequence of `put` calls (each input is a value paired with the
timestamp of its call). -/
def putMany (hash : String → String) (store : Store) :
    List (String × String) → Store
  | [] => store
  | (v, t) :: rest => putMany hash (put hash store v t).2 rest

/-- Every entry of the store is keyed by the digest of its own value, and
the `id` and `properties.sha256_hash` of the record repeat that digest. -/
def StoreWF (hash : String → String) (store : Store) : Prop :=
  ∀ p ∈ store, p.1 = hash p.2.value ∧ p.2.id = hash p.2.value ∧
    p.2.properties.sha256_hash = hash p.2.value

/-! ### The filter engine -/

/-- The validated FilterSet: the `filters` object built by the handlers.
Absent fields are `none`.  `contains_character` is validated to a single
character, so it is stored as a `Char`. -/
structure FilterSet where
  is_palindrome : Option Bool := none
  min_length : Option Nat := none
  max_length : Option Nat := none
  word_count : Option Nat := none
  contains_character : Option Char := none
deriving DecidableEq

/-- The filtering cascade of `app.get("/strings")` (lines 248-278): the
record array is filtered once per present filter, in source order
(is_palindrome, min_length, max_length, word_count, contains_character).
`item.value.includes(c)` on the one-character filter string is
`jsIncludes item.value.data [c]`. -/
def applyFilters (f : FilterSet) (records : List AnalyzedString) :
    List AnalyzedString :=
  let results := records
  let results := match f.is_palindrome with
    | some b => results.filter (fun item => item.properties.is_palindrome == b)
    | none => results
  let results := match f.min_length with
    | some m => results.filter (fun item => decide (item.properties.length ≥ m))
    | none => results
  let results := match f.max_length with
    | some m => results.filter (fun item => decide (item.properties.length ≤ m))
    | none => results
  let results := match f.word_count with
    | some w => results.filter (fun item => item.properties.word_count == w)
    | none => results
  let results := match f.contains_character with
    | some c => results.filter (fun item => jsIncludes item.value.data [c])
    | none => results
  results

/-- The filtering cascade of `app.get("/strings/filter-by-natural-language")`
(lines 114-139): same stages but in the order is_palindrome, word_count,
min_length, contains_character, and no max_length stage (the interpreter
never emits one). -/
def applyNLFilters (f : FilterSet) (records : List AnalyzedString) :
    List AnalyzedString :=
  let results := records
  let results := match f.is_palindrome with
    | some b => results.filter (fun item => item.properties.is_palindrome == b)
    | none => results
  let results := match f.word_count with
    | some w => results.filter (fun item => item.properties.word_count == w)
    | none => results
  let results := match f.min_length with
    | some m => results.filter (fun item => decide (item.properties.length ≥ m))
    | none => results
  let results := match f.contains_character with
    | some c => results.filter (fun item => jsIncludes item.value.data [c])
    | none => results
  results

/-- Spec-side predicate (section 4.4 of the spec): a record satisfies a
FilterSet when it meets the conjunction of every present filter —
exact match on the palindrome flag, inclusive bounds on length, exact
word count, and case-sensitive character membership in the raw value;
an absent filter imposes no constraint. -/
def satisfiesFilterSet (f : FilterSet) (r : AnalyzedString) : Bool :=
  (f.is_palindrome.all fun b => r.properties.is_palindrome == b) &&
  (f.min_length.all fun m => decide (m ≤ r.properties.length)) &&
  (f.max_length.all fun m => decide (r.properties.length ≤ m)) &&
  (f.word_count.all fun w => r.properties.word_count == w) &&
  (f.contains_character.all fun c => r.value.data.any (· == c))

/-! ### Structured query validation -/

/-- The raw query parameters of `GET /strings` (absent parameter = `none`). -/
structure RawParams where
  is_palindrome : Option String := none
  min_length : Option String := none
  max_length : Option String := none
  word_count : Option String := none
  contains_character : Option String := none

/-- Leading decimal digits of `l`, or `none` when there are none. -/
def parseLeadingDigits (l : List Char) : Option Nat :=
  let ds := l.takeWhile jsIsDigit
  if ds.isEmpty then none
  else some (ds.foldl (fun n c => n * 10 + (c.toNat - 0x30)) 0)

/-- JavaScript `parseInt(s, 10)`: skip leading whitespace, read an optional
sign and then the leading run of decimal digits; `none` models `NaN`. -/
def jsParseInt (s : String) : Option Int :=
  match s.data.dropWhile jsIsSpace with
  | '-' :: rest => (parseLeadingDigits rest).map (fun n => -(n : Int))
  | '+' :: rest => (parseLeadingDigits rest).map (fun n => (n : Int))
  | l => (parseLeadingDigits l).map (fun n => (n : Int))

/-- The validation block of `app.get("/strings")` (lines 181-246, first
variant): each present parameter is checked and either contributes its
parsed value to the FilterSet or pushes its error message; the min/max
conflict check runs on the parsed values; all messages are collected in
push order. -/
def validateParams (p : RawParams) : FilterSet × List String :=
  let palStep : Option Bool × List String :=
    match p.is_palindrome with
    | none => (none, [])
    | some s =>
      if s != "true" && s != "false" then
        (none, ["is_palindrome must be \"true\" or \"false\""])
      else (some (s == "true"), [])
  let minStep : Option Nat × List String :=
    match p.min_length with
    | none => (none, [])
    | some s =>
      match jsParseInt s with
      | none => (none, ["min_length must be a non-negative integer"])
      | some i =>
        if i < 0 then (none, ["min_length must be a non-negative integer"])
        else (some i.toNat, [])
  let maxStep : Option Nat × List String :=
    match p.max_length with
    | none => (none, [])
    | some s =>
      match jsParseInt s with
      | none => (none, ["max_length must be a non-negative integer"])
      | some i =>
        if i < 0 then (none, ["max_length must be a non-negative integer"])
        else (some i.toNat, [])
  let wcStep : Option Nat × List String :=
    match p.word_count with
    | none => (none, [])
    | some s =>
      match jsParseInt s with
      | none => (none, ["word_count must be a non-negative integer"])
      | some i =>
        if i < 0 then (none, ["word_count must be a non-negative integer"])
        else (some i.toNat, [])
  let ccStep : Option Char × List String :=
    match p.contains_character with
    | none => (none, [])
    | some s =>
      match s.data with
      | [c] => (some c, [])
      | _ => (none, ["contains_character must be a single character"])
  let conflictErrs : List String :=
    match minStep.1, maxStep.1 with
    | some m, some M =>
      if M < m then ["min_length cannot be greater than max_length"] else []
    | _, _ => []
  ({ is_palindrome := palStep.1
     min_length := minStep.1
     max_length := maxStep.1
     word_count := wcStep.1
     contains_character := ccStep.1 },
   palStep.2 ++ minStep.2 ++ maxStep.2 ++ wcStep.2 ++ ccStep.2 ++ conflictErrs)

/-- Response of the list/filter endpoint. -/
inductive ListResponse where
  | badRequest (details : List String)
  | ok (data : List AnalyzedString) (count : Nat) (filters : FilterSet)
deriving DecidableEq

/-- `app.get("/strings")`, first variant (lines 170-286): on any validation
error, status 400 with the full `details` list and no filtering; otherwise
the filtered snapshot with its count and the applied FilterSet. -/
def getStringsHandler (p : RawParams) (store : Store) : ListResponse :=
  let v := validateParams p
  if v.2.length > 0 then ListResponse.badRequest v.2
  else
    let results := applyFilters v.1 (listStrings store)
    ListResponse.ok results results.length v.1

/-! ### Structured query validation, second variant (lines 501-628)

Identical validation structure with different message texts, but the guard
before filtering is `if (errors > 0)` — a JavaScript relational comparison
between an **array** and a number — instead of `errors.length > 0`. -/

/-- The validation block of the second variant `app.get("/strings")`
(lines 513-573): same checks as `validateParams`, different messages. -/
def validateParams2 (p : RawParams) : FilterSet × List String :=
  let palStep : Option Bool × List String :=
    match p.is_palindrome with
    | none => (none, [])
    | some s =>
      if s != "true" && s != "false" then
        (none, ["is_palindrome must be true or false"])
      else (some (s == "true"), [])
  let minStep : Option Nat × List String :=
    match p.min_length with
    | none => (none, [])
    | some s =>
      match jsParseInt s with
      | none => (none, ["Minlength must not be a negative number"])
      | some i =>
        if i < 0 then (none, ["Minlength must not be a negative number"])
        else (some i.toNat, [])
  let maxStep : Option Nat × List String :=
    match p.max_length with
    | none => (none, [])
    | some s =>
      match jsParseInt s with
      | none => (none, ["Maxlength must not be a negative number"])
      | some i =>
        if i < 0 then (none, ["Maxlength must not be a negative number"])
        else (some i.toNat, [])
  let wcStep : Option Nat × List String :=
    match p.word_count with
    | none => (none, [])
    | some s =>
      match jsParseInt s with
      | none => (none, ["Wordcount must not be a negative number"])
      | some i =>
        if i < 0 then (none, ["Wordcount must not be a negative number"])
        else (some i.toNat, [])
  let ccStep : Option Char × List String :=
    match p.contains_character with
    | none => (none, [])
    | some s =>
      match s.data with
      | [c] => (some c, [])
      | _ => (none, ["contains_character must be a single character"])
  let conflictErrs : List String :=
    match minStep.1, maxStep.1 with
    | some m, some M =>
      if M < m then ["min_length cannot be greater than max_length"] else []
    | _, _ => []
  ({ is_palindrome := palStep.1
     min_length := minStep.1
     max_length := maxStep.1
     word_count := wcStep.1
     contains_character := ccStep.1 },
   palStep.2 ++ minStep.2 ++ maxStep.2 ++ wcStep.2 ++ ccStep.2 ++ conflictErrs)

/-- ToNumber on a string as needed by `array > 0`: an all-whitespace string
converts to 0; an optionally signed run of decimal digits converts to that
integer; anything else (every message text here: they contain letters and
spaces) converts to NaN, modelled as `none`.  (The full JavaScript ToNumber
also accepts decimal points, exponents and hex literals; no error message
is of that shape, so this restriction is immaterial.) -/
def jsStringToNumber (s : String) : Option Int :=
  let t := ((s.data.dropWhile jsIsSpace).reverse.dropWhile jsIsSpace).reverse
  match t with
  | [] => some 0
  | '-' :: rest =>
    if rest ≠ [] && rest.all jsIsDigit then
      (parseLeadingDigits rest).map (fun n => -(n : Int))
    else none
  | '+' :: rest =>
    if rest ≠ [] && rest.all jsIsDigit then
      (parseLeadingDigits rest).map (fun n => (n : Int))
    else none
  | l =>
    if l.all jsIsDigit then (parseLeadingDigits l).map (fun n => (n : Int))
    else none

/-- The JavaScript expression `errors > 0` where `errors` is an array of
strings: the array is converted to a primitive by `join(",")`, that string
is converted to a number (NaN for non-numeric text), and any comparison
with NaN is false. -/
def jsArrayGtZero (errors : List String) : Bool :=
  match jsStringToNumber (String.intercalate "," errors) with
  | some n => decide (n > 0)
  | none => false

/-- Second variant `app.get("/strings")` (lines 501-628).  The source reads
`if (errors > 0) { res.status(400)... }` — comparing the array itself with
0, which is false for every message list this validator can produce — and
the 400 branch also lacks a `return`, so control always reaches the
filtering code and the 200 response. -/
def getStringsHandler2 (p : RawParams) (store : Store) : ListResponse :=
  let v := validateParams2 p
  if jsArrayGtZero v.2 then ListResponse.badRequest v.2
  else
    let results := applyFilters v.1 (listStrings store)
    ListResponse.ok results results.length v.1

/-! ### The natural-language query interpreter -/

/-- The pattern text of `/longer than (\d+)/` up to the capture group. -/
def longerThanPat : List Char := "longer than ".data

/-- Leftmost match of `/longer than (\d+)/`: scan the phrase left to right;
at the first position where the literal text is followed by at least one
digit, capture the maximal digit run and return its numeric value. -/
def findLongerThan : List Char → Option Nat
  | [] => none
  | c :: t =>
    if startsWithChars (c :: t) longerThanPat then
      match parseLeadingDigits ((c :: t).drop longerThanPat.length) with
      | some n => some n
      | none => findLongerThan t
    else findLongerThan t

/-- The pattern text of `/containing the letter (\w)/` up to the capture
group. -/
def containingLetterPat : List Char := "containing the letter ".data

/-- Leftmost match of `/containing the letter (\w)/`: at the first position
where the literal text is followed by a word character, capture that
character. -/
def findContainingLetter : List Char → Option Char
  | [] => none
  | c :: t =>
    if startsWithChars (c :: t) containingLetterPat then
      match (c :: t).drop containingLetterPat.length with
      | w :: _ => if jsIsWordChar w then some w else findContainingLetter t
      | [] => findContainingLetter t
    else findContainingLetter t

/-- The `filters` object built by `interpretQuery` (src/index.js lines
85-95): lowercase the phrase and test the four independent patterns. -/
def interpretFilters (query : String) : FilterSet :=
  let lower := query.data.map jsToLower
  { is_palindrome :=
      if jsIncludes lower "palindromic".data then some true else none
    word_count :=
      if jsIncludes lower "single word".data || jsIncludes lower "one word".data
      then some 1 else none
    min_length := (findLongerThan lower).map (· + 1)
    max_length := none
    contains_character := findContainingLetter lower }

/-- `interpretQuery` (src/index.js lines 83-98): return the accumulated
filters when at least one key was set
(`Object.keys(filters).length ? filters : null`), `null` (here `none`)
otherwise. -/
def interpretQuery (query : String) : Option FilterSet :=
  let filters := interpretFilters query
  if filters.is_palindrome.isSome || filters.word_count.isSome ||
     filters.min_length.isSome || filters.contains_character.isSome
  then some filters else none

/-- Response of the natural-language filter endpoint. -/
inductive NLResponse where
  | badRequest (error : String)
  | ok (data : List AnalyzedString) (count : Nat) (original : String)
       (parsed : FilterSet)
deriving DecidableEq

/-- `app.get("/strings/filter-by-natural-language")` (lines 101-149):
a falsy (absent or empty) query is a 400; an uninterpretable query is a
400; otherwise the store snapshot is filtered with the parsed FilterSet. -/
def filterByNaturalLanguage (query : Option String) (store : Store) :
    NLResponse :=
  match query with
  | none => NLResponse.badRequest "Query is required"
  | some q =>
    if q = "" then NLResponse.badRequest "Query is required"
    else
      match interpretQuery q with
      | none => NLResponse.badRequest "Unable to parse natural language query"
      | some parsedFilters =>
        let results := applyNLFilters parsedFilters (listStrings store)
        NLResponse.ok results results.length q parsedFilters

example : wordCount "hello world" = 2 := by decide
example : wordCount "   " = 0 := by decide
example : isPalindromeCheck "Race car".data = true := by decide
example : isPalindromeCheck "hello".data = false := by decide
example : (distinctChars "abca".data).length = 3 := by decide
example : charFrequency "aba".data = [('a', 2), ('b', 1)] := by decide

example :
    validateParams { is_palindrome := some "maybe", min_length := some "-1" } =
      ({ }, ["is_palindrome must be \"true\" or \"false\"",
             "min_length must be a non-negative integer"]) := by decide

example :
    interpretQuery "single word palindromic strings" =
      some { is_palindrome := some true, word_count := some 1 } := by decide
example : interpretQuery "banana" = none := by decide
example :
    interpretQuery "strings longer than 12" = some { min_length := some 13 } := by
  decide
example :
    interpretQuery "containing the letter Z" =
      some { contains_character := some 'z' } := by decide
example : jsArrayGtZero ["is_palindrome must be true or false"] = false := by
  decide

/-! ### Lemmas about the character helpers -/

/-- `includes` with a one-character pattern is character membership. -/
theorem jsIncludes_singleton (l : List Char) (c : Char) :
    jsIncludes l [c] = l.any (· == c) := by
  induction l with
  | nil => rfl
  | cons d t ih => simp [jsIncludes, startsWithChars, ih]

/-- Lowercasing never produces an ASCII uppercase letter. -/
theorem jsToLower_not_upper (c : Char) :
    ¬(0x41 ≤ (jsToLower c).toNat ∧ (jsToLower c).toNat ≤ 0x5a) := by
  unfold jsToLower
  split
  · rename_i h
    simp only [Bool.and_eq_true, decide_eq_true_eq] at h
    have hval : (Char.ofNat (c.toNat + 0x20)).toNat = c.toNat + 0x20 := by
      unfold Char.ofNat
      split
      · rfl
      · rename_i hv
        exact absurd (Or.inl (by omega : c.toNat + 0x20 < 55296)) hv
    rw [hval]
    omega
  · rename_i h
    intro hcon
    exact h (by simp only [Bool.and_eq_true, decide_eq_true_eq]; exact hcon)

/-- Lowercasing fixes whitespace characters. -/
theorem jsToLower_of_space (c : Char) (h : jsIsSpace c = true) :
    jsToLower c = c := by
  unfold jsToLower
  split
  · rename_i hc
    exfalso
    simp only [jsIsSpace, Bool.or_eq_true, Bool.and_eq_true, beq_iff_eq,
      decide_eq_true_eq] at h
    simp only [Bool.and_eq_true, decide_eq_true_eq] at hc
    omega
  · rfl

/-- Whitespace characters stay whitespace under lowercasing. -/
theorem jsIsSpace_jsToLower (c : Char) (h : jsIsSpace c = true) :
    jsIsSpace (jsToLower c) = true := by
  rw [jsToLower_of_space c h]; exact h

/-- An all-whitespace character list has word count 0 from any machine
state. -/
theorem wordCountAux_of_space (l : List Char)
    (h : ∀ c ∈ l, jsIsSpace c = true) : ∀ b, wordCountAux b l = 0 := by
  induction l with
  | nil => intro b; rfl
  | cons c t ih =>
    intro b
    have hc : jsIsSpace c = true := h c (List.mem_cons_self c t)
    simp [wordCountAux, hc]
    exact ih (fun d hd => h d (List.mem_cons_of_mem c hd)) false

/-- Palindrome normalization of an all-whitespace list is empty. -/
theorem normalizeForPalindrome_of_space (l : List Char)
    (h : ∀ c ∈ l, jsIsSpace c = true) : normalizeForPalindrome l = [] := by
  unfold normalizeForPalindrome
  rw [List.filter_eq_nil_iff]
  intro x hx
  rcases List.mem_map.1 hx with ⟨c, hc, rfl⟩
  simp [jsIsSpace_jsToLower c (h c hc)]

/-! ### Lemmas about the frequency map and unique-character count -/

/-- Membership test on the key list equals the key test on the entries. -/
theorem any_map_fst_beq (m : List (Char × Nat)) (c : Char) :
    (m.map Prod.fst).any (· == c) = m.any (fun p => p.1 == c) := by
  induction m with
  | nil => rfl
  | cons p t ih => simp [ih]

/-- One frequency-loop step changes the key list exactly as one
deduplication step does. -/
theorem bumpChar_keys (m : List (Char × Nat)) (c : Char) :
    (bumpChar m c).map Prod.fst = insertIfNew (m.map Prod.fst) c := by
  unfold bumpChar insertIfNew
  rw [any_map_fst_beq]
  split
  · rw [List.map_map]
    congr 1
    funext p
    simp only [Function.comp_apply]
    split <;> rfl
  · simp

/-- The key list of the frequency fold is the deduplication fold of the key
list, for any starting accumulator. -/
theorem foldl_bumpChar_keys (l : List Char) :
    ∀ m : List (Char × Nat),
      (l.foldl bumpChar m).map Prod.fst = l.foldl insertIfNew (m.map Prod.fst) := by
  induction l with
  | nil => intro m; rfl
  | cons c t ih =>
    intro m
    simp only [List.foldl_cons]
    rw [ih (bumpChar m c), bumpChar_keys]

/-- The keys of `charFrequency` are exactly the distinct characters of the
input, in first-occurrence order. -/
theorem charFrequency_keys (l : List Char) :
    (charFrequency l).map Prod.fst = distinctChars l :=
  foldl_bumpChar_keys l []

/-- Every character accumulated by the deduplication fold comes from the
accumulator or the list. -/
theorem mem_foldl_insertIfNew (l : List Char) :
    ∀ (ks : List Char) (x : Char),
      x ∈ l.foldl insertIfNew ks → x ∈ ks ∨ x ∈ l := by
  induction l with
  | nil => intro ks x h; exact Or.inl h
  | cons c t ih =>
    intro ks x h
    rcases ih (insertIfNew ks c) x h with h1 | h1
    · unfold insertIfNew at h1
      split at h1
      · exact Or.inl h1
      · rcases List.mem_append.1 h1 with h2 | h2
        · exact Or.inl h2
        · simp only [List.mem_singleton] at h2
          exact Or.inr (h2 ▸ List.mem_cons_self c t)
    · exact Or.inr (List.mem_cons_of_mem c h1)

/-- The distinct characters of `l` all occur in `l`. -/
theorem distinctChars_subset (l : List Char) (x : Char)
    (h : x ∈ distinctChars l) : x ∈ l := by
  rcases mem_foldl_insertIfNew l [] x h with h1 | h1
  · cases h1
  · exact h1

/-! ### Lemmas about the filter cascades -/

/-- The sequential filter cascade of the structured path equals one filter
by the spec-side conjunction predicate. -/
theorem applyFilters_eq_filter (f : FilterSet) (rs : List AnalyzedString) :
    applyFilters f rs = rs.filter (satisfiesFilterSet f) := by
  unfold applyFilters satisfiesFilterSet
  rcases f with ⟨pal, mn, mx, wc, cc⟩
  rcases pal with _ | b <;> rcases mn with _ | m <;> rcases mx with _ | M <;>
    rcases wc with _ | w <;> rcases cc with _ | c <;>
      simp [Option.all_some, Option.all_none, List.filter_filter,
        jsIncludes_singleton, ge_iff_le, Bool.and_comm, Bool.and_left_comm,
        Bool.and_assoc]

/-- The natural-language filter cascade also equals one filter by the
spec-side conjunction predicate, for FilterSets without a max_length
constraint (the interpreter never emits one). -/
theorem applyNLFilters_eq_filter (f : FilterSet) (rs : List AnalyzedString)
    (hmax : f.max_length = none) :
    applyNLFilters f rs = rs.filter (satisfiesFilterSet f) := by
  unfold applyNLFilters satisfiesFilterSet
  rcases f with ⟨pal, mn, mx, wc, cc⟩
  cases hmax
  rcases pal with _ | b <;> rcases mn with _ | m <;>
    rcases wc with _ | w <;> rcases cc with _ | c <;>
      simp [Option.all_some, Option.all_none, List.filter_filter,
        jsIncludes_singleton, ge_iff_le, Bool.and_comm, Bool.and_left_comm,
        Bool.and_assoc]

/-! ### Lemmas about the query interpreter -/

/-- A conditional that can only return `some a` or `none` determines its
successful value. -/
theorem eq_of_ite_some {α : Type} {c : Prop} [Decidable c] {a f : α}
    (h : (if c then some a else none) = some f) : f = a := by
  by_cases hc : c
  · rw [if_pos hc] at h
    exact (Option.some.inj h).symm
  · rw [if_neg hc] at h
    cases h

/-- A successful `interpretQuery` returns exactly the built filter object. -/
theorem interpretQuery_eq_filters (q : String) (f : FilterSet)
    (h : interpretQuery q = some f) : f = interpretFilters q := by
  simp only [interpretQuery] at h
  exact eq_of_ite_some h

/-- A FilterSet produced by `interpretQuery` never constrains max_length. -/
theorem interpretQuery_max_length_none (q : String) (f : FilterSet)
    (h : interpretQuery q = some f) : f.max_length = none := by
  rw [interpretQuery_eq_filters q f h]
  rfl

/-- A character captured by the `containing the letter` pattern occurs in
the scanned text. -/
theorem findContainingLetter_mem (l : List Char) (c : Char)
    (h : findContainingLetter l = some c) : c ∈ l := by
  induction l with
  | nil => cases h
  | cons d t ih =>
    rw [findContainingLetter] at h
    split at h
    · rcases hdrop : (d :: t).drop containingLetterPat.length with _ | ⟨w, rest⟩ <;>
        rw [hdrop] at h <;> dsimp only at h
      · exact List.mem_cons_of_mem d (ih h)
      · split at h
        · cases h
          have hmem : c ∈ (d :: t).drop containingLetterPat.length := by
            rw [hdrop]; exact List.mem_cons_self c rest
          exact List.drop_subset _ _ hmem
        · exact List.mem_cons_of_mem d (ih h)
    · exact List.mem_cons_of_mem d (ih h)

/-! ### Store invariant -/

/-- `put` preserves the store invariant. -/
theorem put_preserves_wf (hash : String → String) (store : Store)
    (v now : String) (hwf : StoreWF hash store) :
    StoreWF hash (put hash store v now).2 := by
  simp only [put]
  split
  · exact hwf
  · intro p hp
    rcases List.mem_append.1 hp with h1 | h1
    · exact hwf p h1
    · simp only [List.mem_singleton] at h1
      subst h1
      exact ⟨rfl, rfl, rfl⟩

/-- `deleteValue` preserves the store invariant. -/
theorem deleteValue_preserves_wf (hash : String → String) (store : Store)
    (v : String) (hwf : StoreWF hash store) :
    StoreWF hash (deleteValue hash store v).2 := by
  simp only [deleteValue]
  split
  · intro p hp
    exact hwf p (List.mem_of_mem_filter hp)
  · exact hwf

/-- The keys of the store stay distinct under `put` (fresh keys are only
inserted after the `has` check fails). -/
theorem put_preserves_nodup_keys (hash : String → String) (store : Store)
    (v now : String) (hnd : (store.map Prod.fst).Nodup) :
    (((put hash store v now).2).map Prod.fst).Nodup := by
  simp only [put]
  split
  · exact hnd
  · rename_i hkey
    simp only [List.map_append, List.map_cons, List.map_nil]
    rw [List.nodup_append]
    refine ⟨hnd, List.nodup_singleton _, ?_⟩
    intro x hx hx2
    simp only [List.mem_singleton] at hx2
    subst hx2
    rcases List.mem_map.1 hx with ⟨p, hp, heq⟩
    have hany : store.any (fun p => p.1 == hash v) = true :=
      List.any_eq_true.2 ⟨p, hp, beq_iff_eq.2 heq⟩
    unfold hasKey at hkey
    exact hkey hany

/-- Any sequence of `put` calls preserves the invariant together with key
distinctness. -/
theorem putMany_preserves (hash : String → String)
    (inputs : List (String × String)) :
    ∀ store : Store, StoreWF hash store → (store.map Prod.fst).Nodup →
      StoreWF hash (putMany hash store inputs) ∧
        ((putMany hash store inputs).map Prod.fst).Nodup := by
  induction inputs with
  | nil => intro store hwf hnd; exact ⟨hwf, hnd⟩
  | cons vt rest ih =>
    intro store hwf hnd
    rcases vt with ⟨v, t⟩
    exact ih (put hash store v t).2 (put_preserves_wf hash store v t hwf)
      (put_preserves_nodup_keys hash store v t hnd)

/-- In a store with distinct keys whose entries are keyed by the digest of
their own value, at most one record carries any given value. -/
theorem at_most_one_per_value (hash : String → String) (w : String) :
    ∀ store : Store, StoreWF hash store → (store.map Prod.fst).Nodup →
      ((listStrings store).filter (fun r => r.value == w)).length ≤ 1 := by
  intro store
  induction store with
  | nil => intro _ _; simp [listStrings]
  | cons p t ih =>
    intro hwf hnd
    have hwf_t : StoreWF hash t := fun q hq => hwf q (List.mem_cons_of_mem p hq)
    have hnd_t : (t.map Prod.fst).Nodup := (List.nodup_cons.1 hnd).2
    have hnotin : p.1 ∉ t.map Prod.fst := (List.nodup_cons.1 hnd).1
    simp only [listStrings, List.map_cons, List.filter_cons]
    split
    · rename_i hval
      have hval_eq : p.2.value = w := beq_iff_eq.1 hval
      have hempty :
          List.filter (fun r => r.value == w) (List.map (fun x => x.2) t) = [] := by
        rw [List.filter_eq_nil_iff]
        intro r hr
        rcases List.mem_map.1 hr with ⟨q, hq, heq⟩
        simp only [Bool.not_eq_true]
        rcases hbeq : r.value == w with _ | _
        · rfl
        · exfalso
          have hq_eq : q.2.value = w := by
            have hrw : r.value = w := beq_iff_eq.1 hbeq
            rw [← heq] at hrw
            exact hrw
          have hkey_q : q.1 = hash w := by
            rw [(hwf q (List.mem_cons_of_mem p hq)).1, hq_eq]
          have hkey_p : p.1 = hash w := by
            rw [(hwf p (List.mem_cons_self p t)).1, hval_eq]
          exact hnotin (List.mem_map.2 ⟨q, hq, by rw [hkey_q, hkey_p]⟩)
      rw [hempty]
      simp
    · exact ih hwf_t hnd_t

/-! ### Claim theorems -/

/-- C1: for every string `v`, when the store already holds a record under
`hash v`, `put` fails with Conflict and the store is unchanged; otherwise
`put` analyzes `v`, inserts the record under `hash v` and returns it; and
after any sequence of puts starting from the empty store, the store holds
at most one record per distinct value. -/
theorem put_conflict_or_insert_and_at_most_one_per_value
    (hash : String → String) (store : Store) (v now : String) :
    (hasKey store (hash v) = true →
      put hash store v now = (PutResult.conflict, store)) ∧
    (hasKey store (hash v) = false →
      put hash store v now =
        (PutResult.created (analyzeString hash v now),
         store ++ [(hash v, analyzeString hash v now)])) ∧
    (∀ (inputs : List (String × String)) (w : String),
      ((listStrings (putMany hash [] inputs)).filter
        (fun r => r.value == w)).length ≤ 1) := by
  refine ⟨?_, ?_, ?_⟩
  · intro h; simp [put, h]
  · intro h; simp [put, h]
  · intro inputs w
    have hpm := putMany_preserves hash inputs []
      (fun p hp => absurd hp (List.not_mem_nil p)) List.nodup_nil
    exact at_most_one_per_value hash w _ hpm.1 hpm.2

/-- C1 witness: concrete duplicate `put` conflicts and leaves the store
unchanged, a fresh `put` inserts, and a double `put` of `"abc"` leaves a
single record with that value. -/
theorem put_conflict_or_insert_witness :
    (put (fun s => s) [("abc", analyzeString (fun s => s) "abc" "t0")] "abc" "t1" =
      (PutResult.conflict, [("abc", analyzeString (fun s => s) "abc" "t0")])) ∧
    (put (fun s => s) [] "abc" "t0" =
      (PutResult.created (analyzeString (fun s => s) "abc" "t0"),
       [("abc", analyzeString (fun s => s) "abc" "t0")])) ∧
    ((listStrings (putMany (fun s => s) [] [("abc", "t0"), ("abc", "t1")])).filter
      (fun r => r.value == "abc")).length ≤ 1 := by
  refine ⟨?_, ?_, ?_⟩
  · exact (put_conflict_or_insert_and_at_most_one_per_value (fun s => s)
      [("abc", analyzeString (fun s => s) "abc" "t0")] "abc" "t1").1 (by decide)
  · exact (put_conflict_or_insert_and_at_most_one_per_value (fun s => s)
      [] "abc" "t0").2.1 (by decide)
  · exact (put_conflict_or_insert_and_at_most_one_per_value (fun s => s)
      [] "abc" "t0").2.2 [("abc", "t0"), ("abc", "t1")] "abc"

/-- C2: the first variant of `GET /strings` collects every validation error
and, when at least one was detected, returns the full list and applies no
filtering; the concrete pair `is_palindrome=maybe, min_length=-1` yields two
distinct messages.  The second variant collects the same errors but its
guard `errors > 0` compares the array itself with 0, which is false, so at
the failing input `is_palindrome=maybe` it detects the error and then
responds 200 with data anyway. -/
theorem validation_aggregation_and_variant2_guard_bug :
    (∀ (p : RawParams) (store : Store),
      getStringsHandler p store =
        if (validateParams p).2.isEmpty then
          ListResponse.ok (applyFilters (validateParams p).1 (listStrings store))
            (applyFilters (validateParams p).1 (listStrings store)).length
            (validateParams p).1
        else ListResponse.badRequest (validateParams p).2) ∧
    (validateParams { is_palindrome := some "maybe", min_length := some "-1" } =
      ({ }, ["is_palindrome must be \"true\" or \"false\"",
             "min_length must be a non-negative integer"])) ∧
    (validateParams2 { is_palindrome := some "maybe" } =
      ({ }, ["is_palindrome must be true or false"])) ∧
    (∀ store : Store,
      getStringsHandler2 { is_palindrome := some "maybe" } store =
        ListResponse.ok (listStrings store) (listStrings store).length { }) := by
  refine ⟨?_, by decide, by decide, ?_⟩
  · intro p store
    rcases hv : (validateParams p).2 with _ | ⟨e, es⟩ <;>
      simp [getStringsHandler, hv]
  · intro store
    have hv : validateParams2 { is_palindrome := some "maybe" } =
        ({ }, ["is_palindrome must be true or false"]) := by decide
    have hg : jsArrayGtZero ["is_palindrome must be true or false"] = false := by
      decide
    simp [getStringsHandler2, hv, hg, applyFilters]

/-- C3: `analyzeString` is deterministic modulo the timestamp: for a fixed
value, two calls agree on `id`, `value` and the whole `properties` record
(first variant), and on `id`, `value` and all six analysis fields of
`properties` (second variant, whose `properties` also carries `created_at`);
only the timestamp field may differ. -/
theorem analyze_deterministic_modulo_timestamp
    (hash : String → String) (v t1 t2 : String) :
    (analyzeString hash v t1).id = (analyzeString hash v t2).id ∧
    (analyzeString hash v t1).value = (analyzeString hash v t2).value ∧
    (analyzeString hash v t1).properties = (analyzeString hash v t2).properties ∧
    (analyzeString2 hash v t1).id = (analyzeString2 hash v t2).id ∧
    (analyzeString2 hash v t1).value = (analyzeString2 hash v t2).value ∧
    (analyzeString2 hash v t1).properties.length =
      (analyzeString2 hash v t2).properties.length ∧
    (analyzeString2 hash v t1).properties.is_palindrome =
      (analyzeString2 hash v t2).properties.is_palindrome ∧
    (analyzeString2 hash v t1).properties.unique_characters =
      (analyzeString2 hash v t2).properties.unique_characters ∧
    (analyzeString2 hash v t1).properties.word_count =
      (analyzeString2 hash v t2).properties.word_count ∧
    (analyzeString2 hash v t1).properties.sha256_hash =
      (analyzeString2 hash v t2).properties.sha256_hash ∧
    (analyzeString2 hash v t1).properties.character_frequency_map =
      (analyzeString2 hash v t2).properties.character_frequency_map :=
  ⟨rfl, rfl, rfl, rfl, rfl, rfl, rfl, rfl, rfl, rfl, rfl⟩

/-- C4: the structured filter cascade returns exactly the records satisfying
the conjunction of all present filters (inclusive length bounds, exact
palindrome and word-count matches, case-sensitive character membership),
and the empty FilterSet returns all records unchanged. -/
theorem applyFilters_is_conjunction (f : FilterSet) (rs : List AnalyzedString) :
    applyFilters f rs = rs.filter (satisfiesFilterSet f) ∧
    applyFilters { } rs = rs :=
  ⟨applyFilters_eq_filter f rs, rfl⟩

/-- C5: `interpretQuery` lowercases the phrase and matches the four patterns
independently: `"palindromic"` sets `is_palindrome = true`, `"single word"`
or `"one word"` sets `word_count = 1`, `"longer than N"` sets
`min_length = N + 1`, `"containing the letter c"` sets
`contains_character = c`; it returns the accumulated FilterSet exactly when
at least one pattern matched and the no-match signal exactly when none did. -/
theorem interpretQuery_pattern_semantics (q : String) :
    (interpretQuery q = none ↔
      (jsIncludes (q.data.map jsToLower) "palindromic".data = false ∧
       jsIncludes (q.data.map jsToLower) "single word".data = false ∧
       jsIncludes (q.data.map jsToLower) "one word".data = false ∧
       findLongerThan (q.data.map jsToLower) = none ∧
       findContainingLetter (q.data.map jsToLower) = none)) ∧
    (∀ f, interpretQuery q = some f →
      f.is_palindrome =
        (if jsIncludes (q.data.map jsToLower) "palindromic".data then some true
         else none) ∧
      f.word_count =
        (if jsIncludes (q.data.map jsToLower) "single word".data ||
            jsIncludes (q.data.map jsToLower) "one word".data then some 1
         else none) ∧
      (∀ n, findLongerThan (q.data.map jsToLower) = some n →
        f.min_length = some (n + 1)) ∧
      f.contains_character = findContainingLetter (q.data.map jsToLower) ∧
      f.max_length = none) := by
  constructor
  · rcases hp : jsIncludes (q.data.map jsToLower) "palindromic".data with _ | _ <;>
    rcases hs : jsIncludes (q.data.map jsToLower) "single word".data with _ | _ <;>
    rcases ho : jsIncludes (q.data.map jsToLower) "one word".data with _ | _ <;>
    rcases hl : findLongerThan (q.data.map jsToLower) with _ | n <;>
    rcases hc : findContainingLetter (q.data.map jsToLower) with _ | c <;>
      simp [interpretQuery, interpretFilters, hp, hs, ho, hl, hc]
  · intro f h
    rw [interpretQuery_eq_filters q f h]
    refine ⟨rfl, rfl, ?_, rfl, rfl⟩
    intro n hn
    show ((findLongerThan (q.data.map jsToLower)).map (· + 1)) = some (n + 1)
    rw [hn]
    rfl

/-- C5 witness: a phrase exercising all four patterns; `"longer than 7"`
yields `min_length = 7 + 1`. -/
theorem interpretQuery_pattern_semantics_witness :
    interpretQuery "one word palindromic names longer than 7 containing the letter x" =
      some { is_palindrome := some true, min_length := some 8, max_length := none,
             word_count := some 1, contains_character := some 'x' } ∧
    ({ is_palindrome := some true, min_length := some 8, max_length := none,
       word_count := some 1, contains_character := some 'x' } :
        FilterSet).min_length = some (7 + 1) := by
  refine ⟨by decide, ?_⟩
  exact (((interpretQuery_pattern_semantics
    "one word palindromic names longer than 7 containing the letter x").2
      _ (by decide)).2.2.1 7 (by decide))

/-- C6: whenever interpretation succeeds, the natural-language filtering
path returns the same result set as applying the identical FilterSet
through the structured path; in particular
`interpretQuery "single word palindromic strings"` yields the FilterSet
`is_palindrome = true, word_count = 1` and both cascades agree on every
store snapshot. -/
theorem natural_language_equivalence (q : String) (f : FilterSet)
    (rs : List AnalyzedString) :
    (interpretQuery q = some f → applyNLFilters f rs = applyFilters f rs) ∧
    interpretQuery "single word palindromic strings" =
      some { is_palindrome := some true, word_count := some 1 } ∧
    (∀ store : Store,
      applyNLFilters { is_palindrome := some true, word_count := some 1 }
          (listStrings store) =
        applyFilters { is_palindrome := some true, word_count := some 1 }
          (listStrings store)) := by
  refine ⟨?_, by decide, ?_⟩
  · intro h
    rw [applyNLFilters_eq_filter f rs (interpretQuery_max_length_none q f h),
      applyFilters_eq_filter]
  · intro store
    rw [applyNLFilters_eq_filter _ _ rfl, applyFilters_eq_filter]

/-- C6 witness: both filtering paths agree on a concrete two-record store
for the FilterSet produced by `"single word palindromic strings"`. -/
theorem natural_language_equivalence_witness :
    applyNLFilters { is_palindrome := some true, word_count := some 1 }
        [analyzeString (fun s => s) "racecar" "t1",
         analyzeString (fun s => s) "hello world" "t2"] =
      applyFilters { is_palindrome := some true, word_count := some 1 }
        [analyzeString (fun s => s) "racecar" "t1",
         analyzeString (fun s => s) "hello world" "t2"] :=
  (natural_language_equivalence "single word palindromic strings"
    { is_palindrome := some true, word_count := some 1 }
    [analyzeString (fun s => s) "racecar" "t1",
     analyzeString (fun s => s) "hello world" "t2"]).1 (by decide)

/-- C7: analyzing the empty string gives length 0, word count 0, zero unique
characters, palindrome true and an empty frequency map; analyzing any
whitespace-only string gives word count 0 and palindrome true, while the
length counts the literal whitespace characters and the frequency map keys
are exactly the distinct (whitespace) characters that occur. -/
theorem analyze_empty_and_whitespace_only (hash : String → String)
    (t : String) :
    ((analyzeString hash "" t).properties =
      { length := 0, is_palindrome := true, unique_characters := 0,
        word_count := 0, sha256_hash := hash "",
        character_frequency_map := [] }) ∧
    (∀ s : String, (∀ c ∈ s.data, jsIsSpace c = true) →
      (analyzeString hash s t).properties.word_count = 0 ∧
      (analyzeString hash s t).properties.is_palindrome = true ∧
      (analyzeString hash s t).properties.length = s.data.length ∧
      ((analyzeString hash s t).properties.character_frequency_map.map
        Prod.fst = distinctChars s.data) ∧
      (∀ p ∈ (analyzeString hash s t).properties.character_frequency_map,
        jsIsSpace p.1 = true)) := by
  refine ⟨rfl, ?_⟩
  intro s hs
  refine ⟨?_, ?_, rfl, charFrequency_keys s.data, ?_⟩
  · exact wordCountAux_of_space s.data hs false
  · show isPalindromeCheck s.data = true
    unfold isPalindromeCheck
    rw [normalizeForPalindrome_of_space s.data hs]
    rfl
  · intro p hp
    have hkey : p.1 ∈ (charFrequency s.data).map Prod.fst :=
      List.mem_map_of_mem Prod.fst hp
    rw [charFrequency_keys] at hkey
    exact hs p.1 (distinctChars_subset s.data p.1 hkey)

/-- C7 witness: the whitespace-only string of a space and a tab. -/
theorem analyze_empty_and_whitespace_only_witness :
    (∀ c ∈ (" \t" : String).data, jsIsSpace c = true) ∧
    (analyzeString (fun s => s) " \t" "t0").properties.word_count = 0 ∧
    (analyzeString (fun s => s) " \t" "t0").properties.is_palindrome = true ∧
    (analyzeString (fun s => s) " \t" "t0").properties.length = 2 := by
  refine ⟨by decide, ?_, ?_, ?_⟩
  · exact ((analyze_empty_and_whitespace_only (fun s => s) "t0").2 " \t"
      (by decide)).1
  · exact ((analyze_empty_and_whitespace_only (fun s => s) "t0").2 " \t"
      (by decide)).2.1
  · exact ((analyze_empty_and_whitespace_only (fun s => s) "t0").2 " \t"
      (by decide)).2.2.1

/-- C8: the store invariant — every entry is keyed by the digest of its own
value, and the `id` and `properties.sha256_hash` of the record equal that same
digest — holds for the initial empty store, is preserved by `put` and
`deleteValue`, makes every record listed satisfy it, lets `getValue v`
observe only a record whose value digests to `hash v`, and lets
`deleteValue v` remove only entries keyed `hash v`. -/
theorem store_content_addressing_invariant (hash : String → String)
    (store : Store) (v now : String) (hwf : StoreWF hash store) :
    StoreWF hash ([] : Store) ∧
    StoreWF hash (put hash store v now).2 ∧
    StoreWF hash (deleteValue hash store v).2 ∧
    (∀ r, getValue hash store v = some r →
      r.id = hash v ∧ r.properties.sha256_hash = hash v ∧
      hash r.value = hash v) ∧
    (∀ p ∈ store, p ∉ (deleteValue hash store v).2 → p.1 = hash v) ∧
    (∀ r ∈ listStrings store,
      r.id = hash r.value ∧ r.properties.sha256_hash = hash r.value) := by
  refine ⟨fun p hp => absurd hp (List.not_mem_nil p),
    put_preserves_wf hash store v now hwf,
    deleteValue_preserves_wf hash store v hwf, ?_, ?_, ?_⟩
  · intro r hr
    simp only [getValue] at hr
    split at hr
    · unfold getKey at hr
      rcases hfind : store.find? (fun p => p.1 == hash v) with _ | q <;>
        rw [hfind] at hr
      · cases hr
      · have hq1 := List.find?_some hfind
        have hqmem : q ∈ store := List.mem_of_find?_eq_some hfind
        have hq := hwf q hqmem
        have hr2 : q.2 = r := Option.some.inj hr
        subst hr2
        have hq1eq : q.1 = hash v := beq_iff_eq.1 hq1
        have hkey : hash q.2.value = hash v := by rw [← hq.1, hq1eq]
        exact ⟨hq.2.1.trans hkey, hq.2.2.trans hkey, hkey⟩
    · cases hr
  · intro p hp hnotin2
    by_contra hne
    apply hnotin2
    simp only [deleteValue]
    split
    · refine List.mem_filter.2 ⟨hp, ?_⟩
      have hfalse : (p.1 == hash v) = false := beq_false_of_ne hne
      simp [hfalse]
    · exact hp
  · intro r hr
    rcases List.mem_map.1 hr with ⟨p, hp, heq⟩
    have h := hwf p hp
    exact ⟨by rw [← heq]; exact h.2.1, by rw [← heq]; exact h.2.2⟩

/-- C8 witness: a concrete one-record store keyed by its own digest. -/
theorem store_content_addressing_invariant_witness :
    StoreWF (fun s => s)
      (put (fun s => s) [("abc", analyzeString (fun s => s) "abc" "t0")]
        "abc" "t1").2 ∧
    (∀ r, getValue (fun s => s)
        [("abc", analyzeString (fun s => s) "abc" "t0")] "abc" = some r →
      r.id = "abc" ∧ r.properties.sha256_hash = "abc" ∧
      (fun s => s) r.value = "abc") := by
  have hwf : StoreWF (fun s => s)
      [("abc", analyzeString (fun s => s) "abc" "t0")] := by
    intro p hp
    simp only [List.mem_singleton] at hp
    subst hp
    exact ⟨rfl, rfl, rfl⟩
  exact ⟨(store_content_addressing_invariant (fun s => s)
      [("abc", analyzeString (fun s => s) "abc" "t0")] "abc" "t1" hwf).2.1,
    (store_content_addressing_invariant (fun s => s)
      [("abc", analyzeString (fun s => s) "abc" "t0")] "abc" "t1" hwf).2.2.2.1⟩

/-- C9: `unique_characters` equals the number of keys of
`character_frequency_map`: the key list is exactly the first-occurrence
deduplication of the characters of the value — the same notion of
character that `unique_characters` counts. -/
theorem unique_characters_eq_frequency_key_count (hash : String → String)
    (v t : String) :
    ((analyzeString hash v t).properties.character_frequency_map.map
      Prod.fst = distinctChars v.data) ∧
    (analyzeString hash v t).properties.unique_characters =
      ((analyzeString hash v t).properties.character_frequency_map.map
        Prod.fst).length := by
  refine ⟨charFrequency_keys v.data, ?_⟩
  show (distinctChars v.data).length =
    ((charFrequency v.data).map Prod.fst).length
  rw [charFrequency_keys]

/-- C10: the `contains_character` filter emitted by `interpretQuery` is
captured from the lowercased phrase, so it is never an ASCII uppercase
letter; `"containing the letter Z"` yields `'z'`; and the subsequent
natural-language filtering is a case-sensitive membership test with that
lowercase character, so a record whose value contains only the uppercase
form is excluded. -/
theorem contains_character_always_lowercase (q : String) (f : FilterSet)
    (c : Char) :
    (interpretQuery q = some f → f.contains_character = some c →
      ¬(0x41 ≤ c.toNat ∧ c.toNat ≤ 0x5a)) ∧
    interpretQuery "containing the letter Z" =
      some { contains_character := some 'z' } ∧
    filterByNaturalLanguage (some "containing the letter Z")
        [("Zebra", analyzeString (fun s => s) "Zebra" "t1"),
         ("zebra", analyzeString (fun s => s) "zebra" "t2")] =
      NLResponse.ok [analyzeString (fun s => s) "zebra" "t2"] 1
        "containing the letter Z" { contains_character := some 'z' } := by
  refine ⟨?_, by decide, by decide⟩
  intro h hc
  rw [interpretQuery_eq_filters q f h] at hc
  have hcc : findContainingLetter (q.data.map jsToLower) = some c := hc
  have hmem := findContainingLetter_mem _ c hcc
  rcases List.mem_map.1 hmem with ⟨d, _, heq⟩
  rw [← heq]
  exact jsToLower_not_upper d

/-- C10 witness: the captured character for the phrase written with an
uppercase Z is the lowercase `'z'`, not an uppercase letter. -/
theorem contains_character_always_lowercase_witness :
    interpretQuery "containing the letter Z" =
      some { contains_character := some 'z' } ∧
    ¬(0x41 ≤ ('z').toNat ∧ ('z').toNat ≤ 0x5a) := by
  refine ⟨by decide, ?_⟩
  exact (contains_character_always_lowercase "containing the letter Z"
    { contains_character := some 'z' } 'z').1 (by decide) rfl
